import Mathlib

/-!
Verification of the entry-resolution core of `keepassx` (`keepassx/main.py`):
the staged fuzzy title matcher `_search_for_entry` / `fuzzy_search_by_title`,
its exclusion filter `_filter_entries`, the field lookups `_find_string` /
`_find_password`, the `MultiDict` title index, and the behaviour of
`difflib.get_close_matches` (with its default `n=3`) that the fourth
matching stage relies on.

Python strings are modelled as Lean `String`s; `str.lower` is modelled by
ASCII lowering (the only case folding relevant to the repository), Python
`float` similarity ratios by exact rationals (for the string sizes involved
the orderings agree), and Python exceptions by an explicit error type.
-/

/-! ## String helpers (Python `str.lower`, `<` on strings, substring test) -/

/-- Python `str.lower`, restricted to ASCII case folding. -/
def py_lower (s : String) : String := ⟨s.data.map Char.toLower⟩

/-- Lexicographic `<` on character lists by code point, shorter-is-smaller on
ties; this is exactly Python's `<` on strings. -/
def chars_lt : List Char → List Char → Bool
  | [], [] => false
  | [], _ :: _ => true
  | _ :: _, [] => false
  | a :: as, b :: bs =>
    if a.toNat < b.toNat then true else if b.toNat < a.toNat then false else chars_lt as bs

/-- Python `s1 < s2` for strings. -/
def str_lt (s₁ s₂ : String) : Bool := chars_lt s₁.data s₂.data

/-- `needle` occurs at the head of `hay`. -/
def chars_head_match : List Char → List Char → Bool
  | [], _ => true
  | _ :: _, [] => false
  | a :: as, b :: bs => a == b && chars_head_match as bs

/-- Python `needle in hay` for strings: contiguous substring containment. -/
def str_contains (hay needle : String) : Bool :=
  (List.range (hay.data.length + 1)).any (fun i => chars_head_match needle.data (hay.data.drop i))

/-! ## Data model

An `Entry` is one credential record of the already-decrypted database: the
ordered `String` child elements (key/value pairs) and the `Name` of the parent
group (`entry.getparent().Name` in the source). -/

/-- One `<String>` child of an `<Entry>`: a `Key`/`Value` pair. -/
structure SField where
  key : String
  value : String
deriving DecidableEq, Repr

/-- One database entry: its named string fields in document order, and the
name of its containing group. -/
structure Entry where
  strings : List SField
  groupName : String
deriving DecidableEq, Repr

/-- `_find_string(entry, key)`: first field whose key matches `key`
case-insensitively (both sides lowered at lookup time); `none` models the
Python `None` returned when no field matches. -/
def find_string (entry : Entry) (key : String) : Option String :=
  match entry.strings.find? (fun s => py_lower s.key == py_lower key) with
  | some s => some s.value
  | none => none

/-- `_find_password(entry)`: first field whose key is exactly `"Password"`
(case-sensitive comparison, unlike `_find_string`). -/
def find_password (entry : Entry) : Option String :=
  match entry.strings.find? (fun s => s.key == "Password") with
  | some s => some s.value
  | none => none

/-- `_get_title(entry) = _find_string(entry, 'Title')`. -/
def get_title (entry : Entry) : Option String := find_string entry "Title"

/-- The title of a well-formed entry (one whose `Title` field exists; every
theorem that needs titles carries that hypothesis). -/
def title_str (entry : Entry) : String := (get_title entry).getD ""

/-- `_filter_entries(entries, ignore_groups)`: `None` passes the list through
unchanged; a list filters out entries whose group name is a member. -/
def filter_entries (entries : List Entry) (ignore_groups : Option (List String)) : List Entry :=
  match ignore_groups with
  | none => entries
  | some gs => entries.filter (fun e => !(gs.contains e.groupName))

/-! ## Python errors surfaced by the resolver -/

/-- The two exceptions the resolution code can raise: `AttributeError`
(calling `.lower()` on the `None` title of an entry with no `Title` field)
and `EntryNotFoundError` with its message string. -/
inductive PyError where
  | attributeError
  | entryNotFoundError (msg : String)
deriving DecidableEq, Repr

/-! ## difflib

The fourth matching stage calls
`difflib.get_close_matches(title.lower(), entry_map.keys(), cutoff=0.7)`,
with the default `n=3`.  `SequenceMatcher` is modelled faithfully for
`isjunk=None`: `b2j` drops "popular" elements of `b` (the autojunk rule),
`find_longest_match` is the j2len dynamic program followed by the two
non-junk extension loops (the junk extension loops never fire since the
`bjunk` set is empty), and the total of `get_matching_blocks` sizes is the
recursion over the sub-intervals around each longest block (its sort/merge
steps do not change the total).  Loops are written with an explicit Nat
fuel that dominates their iteration counts.  Ratios `2*M/T` are carried as
exact `(numerator, positive denominator)` pairs compared by
cross-multiplication, which agrees with the Python float comparisons for
all realistic string lengths. -/

/-- Positions of `c` in `b` (increasing), before the autojunk rule. -/
def b2j_all (b : List Char) (c : Char) : List Nat :=
  (List.range b.length).filter (fun j => b.getD j (Char.ofNat 0) == c)

/-- `SequenceMatcher.__chain_b` with `isjunk=None`: when `len(b) ≥ 200`,
elements occurring more than `len(b)/100 + 1` times are dropped from `b2j`. -/
def b2j (b : List Char) (c : Char) : List Nat :=
  let idxs := b2j_all b c
  if 200 ≤ b.length ∧ b.length / 100 + 1 < idxs.length then [] else idxs

/-- One row (fixed `i`) of the `find_longest_match` dynamic program: fold the
positions `j` of `a[i]` in `b`, building `newj2len` and updating the best
block.  The state is `(j2len-function, (besti, bestj, bestsize))`. -/
def flm_row (j2len : Nat → Nat) (i : Nat) (js : List Nat)
    (best : Nat × Nat × Nat) : (Nat → Nat) × (Nat × Nat × Nat) :=
  js.foldl
    (fun st j =>
      let k := (if j = 0 then 0 else j2len (j - 1)) + 1
      let nj := fun j' => if j' = j then k else st.1 j'
      let best' := if st.2.2.2 < k then (i + 1 - k, j + 1 - k, k) else st.2
      (nj, best'))
    ((fun _ => 0), best)

/-- The dynamic program of `find_longest_match` over `i ∈ [alo, ahi)`. -/
def flm_dp (a : List Char) (b2jf : Char → List Nat) (alo ahi blo bhi : Nat) : Nat × Nat × Nat :=
  ((List.range' alo (ahi - alo)).foldl
    (fun (st : (Nat → Nat) × (Nat × Nat × Nat)) i =>
      let js := (b2jf (a.getD i (Char.ofNat 0))).filter
        (fun j => decide (blo ≤ j) && decide (j < bhi))
      flm_row st.1 i js st.2)
    ((fun _ => 0), (alo, blo, 0))).2

/-- Left extension loop of `find_longest_match` (the non-junk one; the junk
one never fires for `isjunk=None`).  Fuel `besti` dominates the iteration
count, so exhaustion coincides with the loop condition failing. -/
def ext_left (a b : List Char) (alo blo : Nat) :
    Nat → Nat × Nat × Nat → Nat × Nat × Nat
  | 0, st => st
  | fuel + 1, (besti, bestj, bestsize) =>
    if alo < besti ∧ blo < bestj ∧ (a.getD (besti - 1) (Char.ofNat 0) == b.getD (bestj - 1) (Char.ofNat 1)) ∧ (besti - 1 < a.length ∧ bestj - 1 < b.length) then
      ext_left a b alo blo fuel (besti - 1, bestj - 1, bestsize + 1)
    else (besti, bestj, bestsize)

/-- Right extension loop of `find_longest_match`. -/
def ext_right (a b : List Char) (ahi bhi : Nat) :
    Nat → Nat × Nat × Nat → Nat × Nat × Nat
  | 0, st => st
  | fuel + 1, (besti, bestj, bestsize) =>
    if besti + bestsize < ahi ∧ bestj + bestsize < bhi ∧
        (a.getD (besti + bestsize) (Char.ofNat 0) == b.getD (bestj + bestsize) (Char.ofNat 1)) ∧
        (besti + bestsize < a.length ∧ bestj + bestsize < b.length) then
      ext_right a b ahi bhi fuel (besti, bestj, bestsize + 1)
    else (besti, bestj, bestsize)

/-- `SequenceMatcher.find_longest_match(alo, ahi, blo, bhi)` for `isjunk=None`. -/
def find_longest_match (a b : List Char) (b2jf : Char → List Nat)
    (alo ahi blo bhi : Nat) : Nat × Nat × Nat :=
  let d := flm_dp a b2jf alo ahi blo bhi
  let l := ext_left a b alo blo d.1 (d.1, d.2.1, d.2.2)
  ext_right a b ahi bhi ahi (l.1, l.2.1, l.2.2)

/-- Total size of the matching blocks found by `get_matching_blocks`'s
recursion over `(alo, ahi, blo, bhi)` sub-intervals. -/
def match_total (a b : List Char) (b2jf : Char → List Nat) :
    Nat → Nat × Nat × Nat × Nat → Nat
  | 0, _ => 0
  | fuel + 1, (alo, ahi, blo, bhi) =>
    let m := find_longest_match a b b2jf alo ahi blo bhi
    let i := m.1
    let j := m.2.1
    let k := m.2.2
    if k = 0 then 0
    else
      (if alo < i ∧ blo < j then match_total a b b2jf fuel (alo, i, blo, j) else 0)
      + k
      + (if i + k < ahi ∧ j + k < bhi then match_total a b b2jf fuel (i + k, ahi, j + k, bhi) else 0)

/-- `M`: total matched characters of `SequenceMatcher(None, a, b)`. -/
def sm_match_total (a b : String) : Nat :=
  let la := a.data.length
  let lb := b.data.length
  match_total a.data b.data (b2j b.data) (la + lb + 1) (0, la, 0, lb)

/-- `T = len(a) + len(b)`. -/
def sm_total_len (a b : String) : Nat := a.data.length + b.data.length

/-- `SequenceMatcher.ratio() = 2*M/T` (`1` when `T = 0`), as an exact
rational in place of the Python float. -/
def sm_ratio (a b : String) : ℚ :=
  if sm_total_len a b ≠ 0 then (2 * sm_match_total a b : ℚ) / (sm_total_len a b : ℚ) else 1

/-- Executable test for `cutoff ≤ ratio` with `cutoff = cn/cd`, by
cross-multiplication.  The source chains `real_quick_ratio() >= cutoff and
quick_ratio() >= cutoff and ratio() >= cutoff`; the first two are documented
upper bounds of `ratio()`, so the chain is equivalent to its last conjunct. -/
def ratio_qualifies (cn cd : Nat) (word x : String) : Bool :=
  let M := sm_match_total x word
  let T := sm_total_len x word
  if T = 0 then decide (cn ≤ cd) else decide (cn * T ≤ cd * (2 * M))

/-- The `(numerator, positive denominator)` representation of
`SequenceMatcher(None, x, word).ratio()`. -/
def score_pair (word x : String) : Nat × {d : Nat // 0 < d} :=
  let M := sm_match_total x word
  let T := sm_total_len x word
  if h : T = 0 then (1, ⟨1, Nat.one_pos⟩) else (2 * M, ⟨T, Nat.pos_of_ne_zero h⟩)

/-- `p < q` on ratio pairs, by cross-multiplication. -/
def pair_lt (p q : Nat × {d : Nat // 0 < d}) : Bool :=
  decide (p.1 * q.2.val < q.1 * p.2.val)

/-- The rational value represented by a ratio pair. -/
def pair_val (p : Nat × {d : Nat // 0 < d}) : ℚ := (p.1 : ℚ) / (p.2.val : ℚ)

/-- Descending order on scored candidates, exactly the order of Python's
`sorted(result, reverse=True)` on `(ratio, key)` tuples: larger ratio first,
ties by larger key first. -/
def score_ge (p q : (Nat × {d : Nat // 0 < d}) × String) : Bool :=
  if pair_lt q.1 p.1 then true
  else if pair_lt p.1 q.1 then false
  else !(str_lt p.2 q.2)

/-- `score_ge` as a relation, for sorting. -/
def score_rel (p q : (Nat × {d : Nat // 0 < d}) × String) : Prop := score_ge p q = true

instance : DecidableRel score_rel := fun p q => by unfold score_rel; infer_instance

/-- `difflib.get_close_matches(word, possibilities, n, cn/cd)`: keep the
possibilities whose ratio to `word` reaches the cutoff, then return the `n`
best by `(ratio, key)` descending (`heapq.nlargest` = descending sort + take). -/
def get_close_matches (word : String) (possibilities : List String)
    (n cn cd : Nat) : List String :=
  let result := (possibilities.filter (fun x => ratio_qualifies cn cd word x)).map
    (fun x => (score_pair word x, x))
  ((result.insertionSort score_rel).take n).map (fun p => p.2)

/-! ## The MultiDict title index -/

/-- The `MultiDict` of the source: a dict from lowercased title to the list
of entries appended under that key, modelled as an insertion-ordered
association list (Python dicts preserve insertion order). -/
abbrev MultiDict := List (String × List Entry)

/-- `MultiDict.__setitem__`: create an empty bucket on first use of a key,
then append; an existing key keeps its position. -/
def multidict_set (m : MultiDict) (key : String) (value : Entry) : MultiDict :=
  if m.any (fun p => p.1 == key) then
    m.map (fun p => if p.1 == key then (p.1, p.2 ++ [value]) else p)
  else m ++ [(key, [value])]

/-- `entry_map[name]` (the searched names always come from `keys()`, so the
`KeyError` default is unreachable in the resolver). -/
def multidict_get (m : MultiDict) (key : String) : List Entry :=
  match m.find? (fun p => p.1 == key) with
  | some p => p.2
  | none => []

/-- `entry_map.keys()`, in insertion order. -/
def multidict_keys (m : MultiDict) : List String := m.map (fun p => p.1)

/-! ## The staged search -/

/-- Pair every entry with its title, failing like the Python loops do
(`AttributeError` from `None.lower()`) at the first entry with no `Title`
field. -/
def titles_of : List Entry → Except PyError (List (Entry × String))
  | [] => .ok []
  | e :: es =>
    match get_title e with
    | none => .error .attributeError
    | some t =>
      match titles_of es with
      | .ok ps => .ok ((e, t) :: ps)
      | .error err => .error err

/-- `fuzzy_search_by_title(title, ignore_groups)` over the database entries:
four stages (exact, case-insensitive, substring, close matches), each
returning `_filter_entries` of its raw candidates as soon as the raw
candidate list is non-empty. -/
def fuzzy_search_by_title (db_entries : List Entry) (title : String)
    (ignore_groups : Option (List String)) : Except PyError (List Entry) :=
  -- Exact matches trump (comparing possibly-absent titles with `title`).
  let exact := db_entries.filter (fun e => get_title e == some title)
  if !exact.isEmpty then .ok (filter_entries exact ignore_groups)
  else
    match titles_of db_entries with
    | .error err => .error err
    | .ok titled =>
      -- Case insensitive matches next.
      let title_lower := py_lower title
      let ci := (titled.filter (fun p => py_lower p.2 == title_lower)).map (fun p => p.1)
      if !ci.isEmpty then .ok (filter_entries ci ignore_groups)
      else
        -- Subsequence matches next (`title_lower in entry_title.lower()`).
        let sub := (titled.filter (fun p => str_contains (py_lower p.2) title_lower)).map
          (fun p => p.1)
        if !sub.isEmpty then .ok (filter_entries sub ignore_groups)
        else
          -- Finally close matches that might have mispellings.
          let entry_map := titled.foldl (fun m p => multidict_set m (py_lower p.2) p.1) []
          let close := get_close_matches title_lower (multidict_keys entry_map) 3 7 10
          if !close.isEmpty then
            .ok (filter_entries
              ((close.map (fun name => multidict_get entry_map name)).flatten)
              ignore_groups)
          else .ok []

/-- `_search_for_entry(db, term)`: run the fuzzy search with
`ignore_groups=["Backup"]` and raise `EntryNotFoundError` on an empty
result. -/
def search_for_entry (db_entries : List Entry) (term : String) :
    Except PyError (List Entry) :=
  match fuzzy_search_by_title db_entries term (some ["Backup"]) with
  | .error err => .error err
  | .ok entries =>
    if entries.isEmpty then
      .error (.entryNotFoundError ("Could not find an entry for: " ++ term))
    else .ok entries

/-! ## Stage candidate sets, as standalone definitions (for stating claims) -/

/-- Raw candidates of the exact-match stage. -/
def exact_candidates (db : List Entry) (title : String) : List Entry :=
  db.filter (fun e => get_title e == some title)

/-- Raw candidates of the case-insensitive stage (well-formed entries). -/
def ci_candidates (db : List Entry) (title : String) : List Entry :=
  db.filter (fun e => py_lower (title_str e) == py_lower title)

/-- Raw candidates of the substring stage (well-formed entries). -/
def sub_candidates (db : List Entry) (title : String) : List Entry :=
  db.filter (fun e => str_contains (py_lower (title_str e)) (py_lower title))

/-- The title index built by the fourth stage (well-formed entries). -/
def entry_map_of (db : List Entry) : MultiDict :=
  (db.map (fun e => (e, title_str e))).foldl
    (fun m p => multidict_set m (py_lower p.2) p.1) []

/-- The keys kept by the fourth stage. -/
def approx_keys (db : List Entry) (title : String) : List String :=
  get_close_matches (py_lower title) (multidict_keys (entry_map_of db)) 3 7 10

/-- Raw candidates of the fourth stage: the buckets of the kept keys,
concatenated in kept-key order. -/
def approx_candidates (db : List Entry) (title : String) : List Entry :=
  ((approx_keys db title).map (fun name => multidict_get (entry_map_of db) name)).flatten

/-- The entries filed under key `k` by the loop that builds the title index:
the titled pairs whose lowercased title is `k`, in store order. -/
def bucket_spec (l : List (Entry × String)) (k : String) : List Entry :=
  (l.filter (fun p => py_lower p.2 == k)).map (fun p => p.1)

/-! ## Concrete stores used by witnesses and counterexamples -/

/-- An entry titled `foo` in the `Backup` group. -/
def entry_foo_backup : Entry := ⟨[⟨"Title", "foo"⟩, ⟨"Password", "pb"⟩], "Backup"⟩

/-- An entry whose title contains `foo` strictly, in a non-excluded group. -/
def entry_xfoox_work : Entry := ⟨[⟨"Title", "xfoox"⟩, ⟨"Password", "pw"⟩], "Work"⟩

/-- Store where the only exact match for `foo` is in the excluded group. -/
def db_escalation : List Entry := [entry_foo_backup, entry_xfoox_work]

/-- An entry titled `bar` in the `Backup` group. -/
def entry_bar_backup : Entry := ⟨[⟨"Title", "bar"⟩], "Backup"⟩

/-- An entry titled `BAR` in a non-excluded group. -/
def entry_bar_upper_personal : Entry := ⟨[⟨"Title", "BAR"⟩], "Personal"⟩

/-- Store where the exact match for `bar` is excluded but a case-insensitive
match is not. -/
def db_ci : List Entry := [entry_bar_backup, entry_bar_upper_personal]

/-- Four distinct entries whose titles are all within similarity 8/11 of
`abcde` (none an exact, case-insensitive or substring match). -/
def entry_b1 : Entry := ⟨[⟨"Title", "bacde1"⟩], "G1"⟩
def entry_b2 : Entry := ⟨[⟨"Title", "bacde2"⟩], "G2"⟩
def entry_b3 : Entry := ⟨[⟨"Title", "bacde3"⟩], "G3"⟩
def entry_b4 : Entry := ⟨[⟨"Title", "bacde4"⟩], "G4"⟩
def db_four : List Entry := [entry_b1, entry_b2, entry_b3, entry_b4]

/-- Two approximate matches for `abcdef`; the first in store order has the
lower similarity ratio. -/
def entry_low_score_first : Entry := ⟨[⟨"Title", "bacdefg"⟩], "G1"⟩
def entry_high_score_second : Entry := ⟨[⟨"Title", "bacdef"⟩], "G2"⟩
def db_order : List Entry := [entry_low_score_first, entry_high_score_second]

/-- An entry with a `URL` field, for the field-lookup witness. -/
def entry_url : Entry := ⟨[⟨"Title", "t"⟩, ⟨"URL", "http://x"⟩], "G"⟩

/-- An entry whose password field key is lower-case. -/
def entry_lower_password : Entry := ⟨[⟨"password", "secret"⟩], "G"⟩

/-! ## Order lemmas for `chars_lt` and scored candidates -/

theorem chars_lt_asymm (a : List Char) :
    ∀ b, chars_lt a b = true → chars_lt b a = false := by
  induction a with
  | nil =>
    intro b h
    cases b with
    | nil => simp [chars_lt] at h
    | cons d ds => simp [chars_lt]
  | cons c cs ih =>
    intro b h
    cases b with
    | nil => simp [chars_lt] at h
    | cons d ds =>
      simp only [chars_lt] at h ⊢
      by_cases h1 : c.toNat < d.toNat
      · simp only [if_pos h1] at h
        have h2 : ¬ d.toNat < c.toNat := by omega
        simp [if_neg h2, if_pos h1]
      · by_cases h2 : d.toNat < c.toNat
        · simp [if_neg h1, if_pos h2] at h
        · simp only [if_neg h1, if_neg h2] at h ⊢
          exact ih ds h

theorem chars_lt_connex (a : List Char) :
    ∀ b, chars_lt a b = false → chars_lt b a = false → a = b := by
  induction a with
  | nil =>
    intro b h _
    cases b with
    | nil => rfl
    | cons d ds => simp [chars_lt] at h
  | cons c cs ih =>
    intro b h h'
    cases b with
    | nil => simp [chars_lt] at h'
    | cons d ds =>
      simp only [chars_lt] at h h'
      by_cases h1 : c.toNat < d.toNat
      · simp [if_pos h1] at h
      · by_cases h2 : d.toNat < c.toNat
        · simp [if_pos h2] at h'
        · simp only [if_neg h1, if_neg h2] at h h'
          have hcd : c = d := by
            have : c.toNat = d.toNat := by omega
            rw [← Char.ofNat_toNat c, ← Char.ofNat_toNat d, this]
          rw [hcd, ih ds h h']

theorem chars_lt_trans (a : List Char) :
    ∀ b c, chars_lt a b = true → chars_lt b c = true → chars_lt a c = true := by
  induction a with
  | nil =>
    intro b c h h'
    cases b with
    | nil => simp [chars_lt] at h
    | cons d ds =>
      cases c with
      | nil => simp [chars_lt] at h'
      | cons e es => simp [chars_lt]
  | cons x xs ih =>
    intro b c h h'
    cases b with
    | nil => simp [chars_lt] at h
    | cons d ds =>
      cases c with
      | nil => simp [chars_lt] at h'
      | cons e es =>
        simp only [chars_lt] at h h' ⊢
        by_cases h1 : x.toNat < d.toNat
        · by_cases h2 : d.toNat < e.toNat
          · simp [if_pos (show x.toNat < e.toNat by omega)]
          · by_cases h3 : e.toNat < d.toNat
            · simp [if_pos h3, if_neg (show ¬ d.toNat < e.toNat from h2)] at h'
            · have : d.toNat = e.toNat := by omega
              simp [if_pos (show x.toNat < e.toNat by omega)]
        · by_cases h1' : d.toNat < x.toNat
          · simp [if_neg h1, if_pos h1'] at h
          · have hxd : x.toNat = d.toNat := by omega
            simp only [if_neg h1, if_neg h1'] at h
            by_cases h2 : d.toNat < e.toNat
            · simp [if_pos (show x.toNat < e.toNat by omega)]
            · by_cases h3 : e.toNat < d.toNat
              · simp [if_pos h3, if_neg h2] at h'
              · simp only [if_neg h2, if_neg h3] at h'
                simp only [if_neg (show ¬ x.toNat < e.toNat by omega),
                  if_neg (show ¬ e.toNat < x.toNat by omega)]
                exact ih ds es h h'

theorem str_lt_asymm {s₁ s₂ : String} (h : str_lt s₁ s₂ = true) : str_lt s₂ s₁ = false :=
  chars_lt_asymm s₁.data s₂.data h

theorem str_lt_connex {s₁ s₂ : String} (h : str_lt s₁ s₂ = false)
    (h' : str_lt s₂ s₁ = false) : s₁ = s₂ := by
  cases s₁; cases s₂
  exact congrArg String.mk (chars_lt_connex _ _ h h')

theorem str_lt_trans {s₁ s₂ s₃ : String} (h : str_lt s₁ s₂ = true)
    (h' : str_lt s₂ s₃ = true) : str_lt s₁ s₃ = true :=
  chars_lt_trans s₁.data s₂.data s₃.data h h'

theorem pair_lt_iff (p q : Nat × {d : Nat // 0 < d}) :
    pair_lt p q = true ↔ pair_val p < pair_val q := by
  unfold pair_lt pair_val
  rw [div_lt_div_iff₀ (by exact_mod_cast p.2.property) (by exact_mod_cast q.2.property)]
  simp only [decide_eq_true_eq]
  constructor
  · intro h
    have : (p.1 * q.2.val : ℚ) < (q.1 * p.2.val : ℚ) := by exact_mod_cast h
    linarith
  · intro h
    have : (p.1 * q.2.val : ℚ) < (q.1 * p.2.val : ℚ) := by linarith
    exact_mod_cast this

theorem score_ge_iff (p q : (Nat × {d : Nat // 0 < d}) × String) :
    score_ge p q = true ↔
      (pair_val q.1 < pair_val p.1
        ∨ (pair_val p.1 = pair_val q.1 ∧ str_lt p.2 q.2 = false)) := by
  unfold score_ge
  by_cases h1 : pair_lt q.1 p.1 = true
  · simp [h1, (pair_lt_iff _ _).mp h1]
  · by_cases h2 : pair_lt p.1 q.1 = true
    · have hv := (pair_lt_iff _ _).mp h2
      simp only [h1, h2]
      simp only [Bool.false_eq_true, if_false, if_true]
      constructor
      · intro h; exact absurd h (by simp)
      · intro h
        rcases h with h | h
        · have : ¬ pair_lt q.1 p.1 = true := h1
          rw [pair_lt_iff] at this
          exact absurd h this
        · linarith [h.1]
    · have hq : ¬ pair_val q.1 < pair_val p.1 := fun hc => h1 ((pair_lt_iff _ _).mpr hc)
      have hp : ¬ pair_val p.1 < pair_val q.1 := fun hc => h2 ((pair_lt_iff _ _).mpr hc)
      have heq : pair_val p.1 = pair_val q.1 := le_antisymm (not_lt.mp hq) (not_lt.mp hp)
      simp [h1, h2, heq, Bool.not_eq_true']

theorem score_ge_total (p q : (Nat × {d : Nat // 0 < d}) × String) :
    score_ge p q = true ∨ score_ge q p = true := by
  rw [score_ge_iff, score_ge_iff]
  rcases lt_trichotomy (pair_val p.1) (pair_val q.1) with h | h | h
  · right; left; exact h
  · by_cases hs : str_lt p.2 q.2 = true
    · right; right; exact ⟨h.symm, str_lt_asymm hs⟩
    · left; right; exact ⟨h, Bool.not_eq_true _ ▸ (by simpa using hs)⟩
  · left; left; exact h

theorem score_ge_trans (p q r : (Nat × {d : Nat // 0 < d}) × String)
    (hpq : score_ge p q = true) (hqr : score_ge q r = true) : score_ge p r = true := by
  rw [score_ge_iff] at hpq hqr ⊢
  rcases hpq with h1 | ⟨h1, hs1⟩
  · rcases hqr with h2 | ⟨h2, _⟩
    · left; exact lt_trans h2 h1
    · left; rw [← h2]; exact h1
  · rcases hqr with h2 | ⟨h2, hs2⟩
    · left; rw [h1]; exact h2
    · right
      refine ⟨h1.trans h2, ?_⟩
      by_cases hc : str_lt p.2 r.2 = true
      · exfalso
        by_cases hq : str_lt q.2 p.2 = true
        · have := str_lt_trans hq hc
          rw [this] at hs2
          simp at hs2
        · have hpq2 : p.2 = q.2 := str_lt_connex hs1 (by simpa using hq)
          rw [hpq2] at hc
          rw [hc] at hs2
          simp at hs2
      · simpa using hc

instance : IsTotal ((Nat × {d : Nat // 0 < d}) × String) score_rel :=
  ⟨fun p q => score_ge_total p q⟩

instance : IsTrans ((Nat × {d : Nat // 0 < d}) × String) score_rel :=
  ⟨fun p q r => score_ge_trans p q r⟩

/-! ## Ratio bridges -/

theorem sm_ratio_of (a b : String) (M T : Nat) (hM : sm_match_total a b = M)
    (hT : sm_total_len a b = T) (h0 : T ≠ 0) : sm_ratio a b = (2 * M : ℚ) / T := by
  unfold sm_ratio
  rw [hM, hT, if_pos h0]

theorem ratio_qualifies_iff (word x : String) :
    ratio_qualifies 7 10 word x = true ↔ (7/10 : ℚ) ≤ sm_ratio x word := by
  unfold ratio_qualifies sm_ratio
  by_cases h : sm_total_len x word = 0
  · rw [if_pos h, if_neg (by simp [h])]
    norm_num
  · rw [if_neg h, if_pos h]
    have hT : (0:ℚ) < (sm_total_len x word : ℚ) := by
      exact_mod_cast Nat.pos_of_ne_zero h
    rw [decide_eq_true_eq, div_le_div_iff₀ (by norm_num) hT]
    constructor
    · intro hle
      have h2 : ((7 * sm_total_len x word : Nat) : ℚ) ≤ ((10 * (2 * sm_match_total x word) : Nat) : ℚ) := by
        exact_mod_cast hle
      push_cast at h2
      linarith
    · intro hle
      have h2 : ((7 * sm_total_len x word : Nat) : ℚ) ≤ ((10 * (2 * sm_match_total x word) : Nat) : ℚ) := by
        push_cast
        linarith
      exact_mod_cast h2

theorem pair_val_score_pair (word x : String) :
    pair_val (score_pair word x) = sm_ratio x word := by
  simp only [score_pair, pair_val, sm_ratio]
  by_cases h : sm_total_len x word = 0
  · rw [dif_pos h, if_neg (by simp [h])]
    norm_num
  · rw [dif_neg h, if_pos h]
    push_cast
    ring

/-! ## Properties of `get_close_matches` -/

theorem get_close_matches_length_le (word : String) (poss : List String) (n cn cd : Nat) :
    (get_close_matches word poss n cn cd).length ≤ n := by
  unfold get_close_matches
  simp only [List.length_map, List.length_take]
  exact inf_le_left

theorem get_close_matches_mem (word : String) (poss : List String) (n cn cd : Nat)
    (k : String) (hk : k ∈ get_close_matches word poss n cn cd) :
    k ∈ poss ∧ ratio_qualifies cn cd word k = true := by
  unfold get_close_matches at hk
  simp only [List.mem_map] at hk
  obtain ⟨p, hp, rfl⟩ := hk
  have hp' := List.mem_of_mem_take hp
  rw [List.mem_insertionSort] at hp'
  simp only [List.mem_map] at hp'
  obtain ⟨x, hx, rfl⟩ := hp'
  simp only [List.mem_filter] at hx
  exact hx

theorem get_close_matches_complete (word : String) (poss : List String) (n cn cd : Nat)
    (hlen : (poss.filter (fun x => ratio_qualifies cn cd word x)).length ≤ n)
    (k : String) (hk : k ∈ poss) (hq : ratio_qualifies cn cd word k = true) :
    k ∈ get_close_matches word poss n cn cd := by
  have hlen2 : (((poss.filter (fun x => ratio_qualifies cn cd word x)).map
      (fun x => (score_pair word x, x))).insertionSort score_rel).length ≤ n := by
    rw [List.length_insertionSort, List.length_map]
    exact hlen
  show k ∈ List.map (fun p => p.2) (List.take n (List.insertionSort score_rel
    (List.map (fun x => (score_pair word x, x))
      (List.filter (fun x => ratio_qualifies cn cd word x) poss))))
  rw [List.take_of_length_le hlen2]
  simp only [List.mem_map]
  refine ⟨(score_pair word k, k), ?_, rfl⟩
  rw [List.mem_insertionSort]
  simp only [List.mem_map]
  exact ⟨k, List.mem_filter.mpr ⟨hk, hq⟩, rfl⟩

theorem get_close_matches_shape (word : String) (poss : List String) (n cn cd : Nat)
    (p : (Nat × {d : Nat // 0 < d}) × String)
    (hp : p ∈ (((poss.filter (fun x => ratio_qualifies cn cd word x)).map
      (fun x => (score_pair word x, x))).insertionSort score_rel).take n) :
    p = (score_pair word p.2, p.2) := by
  have hp' := List.mem_of_mem_take hp
  rw [List.mem_insertionSort] at hp'
  simp only [List.mem_map] at hp'
  obtain ⟨x, _, rfl⟩ := hp'
  rfl

theorem get_close_matches_nodup (word : String) (poss : List String) (n cn cd : Nat)
    (h : poss.Nodup) : (get_close_matches word poss n cn cd).Nodup := by
  unfold get_close_matches
  have h1 : (poss.filter (fun x => ratio_qualifies cn cd word x)).Nodup := h.filter _
  have h2 : ((poss.filter (fun x => ratio_qualifies cn cd word x)).map
      (fun x => (score_pair word x, x))).Nodup :=
    h1.map_on (fun x _ y _ hxy => congrArg Prod.snd hxy)
  have h3 := (List.perm_insertionSort score_rel ((poss.filter
      (fun x => ratio_qualifies cn cd word x)).map (fun x => (score_pair word x, x)))).symm.nodup h2
  have h4 := (List.take_sublist n _).nodup h3
  refine h4.map_on ?_
  intro p hp q hq hpq
  rw [get_close_matches_shape word poss n cn cd p hp,
    get_close_matches_shape word poss n cn cd q hq, hpq]

theorem get_close_matches_sorted (word : String) (poss : List String) (n cn cd : Nat) :
    List.Pairwise (fun x y => score_ge (score_pair word x, x) (score_pair word y, y) = true)
      (get_close_matches word poss n cn cd) := by
  unfold get_close_matches
  have hs := List.sorted_insertionSort score_rel ((poss.filter
      (fun x => ratio_qualifies cn cd word x)).map (fun x => (score_pair word x, x)))
  have ht := List.Pairwise.sublist (List.take_sublist n _) hs
  rw [List.pairwise_map]
  refine ht.imp_of_mem ?_
  intro p q hp hq hrel
  have hps := get_close_matches_shape word poss n cn cd p hp
  have hqs := get_close_matches_shape word poss n cn cd q hq
  rw [← hps, ← hqs]
  exact hrel

/-! ## MultiDict lemmas -/

theorem multidict_get_set (m : MultiDict) (k k' : String) (v : Entry) :
    multidict_get (multidict_set m k' v) k =
      if k = k' then multidict_get m k ++ [v] else multidict_get m k := by
  unfold multidict_get multidict_set
  by_cases hin : m.any (fun p => p.1 == k') = true
  · rw [if_pos hin, List.find?_map]
    have hpred : ((fun p : String × List Entry => p.1 == k) ∘
        (fun p : String × List Entry => if p.1 == k' then (p.1, p.2 ++ [v]) else p))
        = (fun p : String × List Entry => p.1 == k) := by
      funext p
      by_cases h : p.1 == k'
      · simp only [Function.comp_apply, if_pos h]
      · simp only [Function.comp_apply, if_neg h]
    rw [hpred]
    cases hf : m.find? (fun p => p.1 == k) with
    | none =>
      by_cases hk : k = k'
      · exfalso
        rw [List.any_eq_true] at hin
        obtain ⟨p, hp, hpk⟩ := hin
        exact List.find?_eq_none.mp hf p hp (by simpa [hk] using hpk)
      · simp [hk]
    | some p =>
      have hpk : p.1 = k := by simpa using List.find?_some hf
      by_cases hk : k = k'
      · simp [hk, hpk.trans hk]
      · simp [hk, show ¬ p.1 = k' from fun hc => hk (hpk.symm.trans hc)]
  · rw [if_neg hin, List.find?_append]
    have hall : ∀ p ∈ m, ¬ (p.1 == k') = true := by
      intro p hp
      have : m.any (fun p => p.1 == k') = false := by
        cases hh : m.any (fun p => p.1 == k') with
        | false => rfl
        | true => exact absurd hh hin
      exact List.any_eq_false.mp this p hp
    by_cases hk : k = k'
    · have hnone : m.find? (fun p => p.1 == k) = none := by
        rw [List.find?_eq_none]
        intro p hp
        rw [hk]
        exact hall p hp
      rw [hnone, hk]
      simp [multidict_get]
    · have hsing : List.find? (fun p : String × List Entry => p.1 == k) [(k', [v])] = none := by
        simp [List.find?, show (k' == k) = false by simp [Ne.symm hk]]
      rw [hsing, Option.or_none, if_neg hk]

theorem multidict_keys_set (m : MultiDict) (k' : String) (v : Entry) :
    multidict_keys (multidict_set m k' v) =
      if k' ∈ multidict_keys m then multidict_keys m else multidict_keys m ++ [k'] := by
  unfold multidict_keys multidict_set
  by_cases hin : m.any (fun p => p.1 == k') = true
  · have hmem : k' ∈ m.map (fun p => p.1) := by
      rw [List.any_eq_true] at hin
      obtain ⟨p, hp, hpk⟩ := hin
      rw [List.mem_map]
      exact ⟨p, hp, by simpa using hpk⟩
    rw [if_pos hin, if_pos hmem, List.map_map]
    congr 1
    funext p
    by_cases h : p.1 == k'
    · simp only [Function.comp_apply, if_pos h]
    · simp only [Function.comp_apply, if_neg h]
  · have hmem : k' ∉ m.map (fun p => p.1) := by
      intro hc
      rw [List.mem_map] at hc
      obtain ⟨p, hp, hpk⟩ := hc
      apply hin
      rw [List.any_eq_true]
      exact ⟨p, hp, by simp [hpk]⟩
    rw [if_neg hin, if_neg hmem, List.map_append]
    rfl

theorem multidict_build_get (l : List (Entry × String)) :
    ∀ (m : MultiDict) (k : String),
      multidict_get (l.foldl (fun m p => multidict_set m (py_lower p.2) p.1) m) k =
        multidict_get m k ++ bucket_spec l k := by
  induction l with
  | nil => intro m k; simp [bucket_spec]
  | cons p l ih =>
    intro m k
    simp only [List.foldl_cons]
    rw [ih, multidict_get_set]
    unfold bucket_spec
    by_cases hk : k = py_lower p.2
    · rw [if_pos hk]
      have : (py_lower p.2 == k) = true := by simp [hk]
      simp only [List.filter_cons, this, List.map_cons]
      rw [List.append_assoc]
      rfl
    · rw [if_neg hk]
      have : (py_lower p.2 == k) = false := by simp [Ne.symm hk]
      simp [List.filter_cons, this]

theorem multidict_build_keys_nodup (l : List (Entry × String)) :
    ∀ m : MultiDict, (multidict_keys m).Nodup →
      (multidict_keys (l.foldl (fun m p => multidict_set m (py_lower p.2) p.1) m)).Nodup := by
  induction l with
  | nil => intro m h; simpa
  | cons p l ih =>
    intro m h
    simp only [List.foldl_cons]
    apply ih
    rw [multidict_keys_set]
    by_cases hin : py_lower p.2 ∈ multidict_keys m
    · rwa [if_pos hin]
    · rw [if_neg hin]
      rw [List.nodup_append]
      refine ⟨h, List.nodup_singleton _, ?_⟩
      intro a ha hb
      rw [List.mem_singleton] at hb
      subst hb
      exact hin ha

theorem entry_map_of_get (db : List Entry) (k : String) :
    multidict_get (entry_map_of db) k = bucket_spec (db.map (fun e => (e, title_str e))) k := by
  unfold entry_map_of
  rw [multidict_build_get]
  simp [multidict_get]

theorem entry_map_of_keys_nodup (db : List Entry) :
    (multidict_keys (entry_map_of db)).Nodup := by
  unfold entry_map_of
  apply multidict_build_keys_nodup
  simp [multidict_keys]

/-! ## filter_entries lemmas -/

theorem filter_entries_sublist (es : List Entry) (ig : Option (List String)) :
    (filter_entries es ig).Sublist es := by
  cases ig with
  | none => exact List.Sublist.refl es
  | some gs => exact List.filter_sublist es

theorem filter_entries_nil (ig : Option (List String)) : filter_entries [] ig = [] := by
  cases ig <;> rfl

theorem mem_filter_entries_some (es : List Entry) (gs : List String) (e : Entry) :
    e ∈ filter_entries es (some gs) ↔ e ∈ es ∧ e.groupName ∉ gs := by
  simp [filter_entries, List.mem_filter]

/-! ## titles_of lemmas -/

theorem titles_of_ok (db : List Entry) (ht : ∀ e ∈ db, (get_title e).isSome) :
    titles_of db = .ok (db.map (fun e => (e, title_str e))) := by
  induction db with
  | nil => rfl
  | cons e es ih =>
    have he : (get_title e).isSome := ht e (by simp)
    obtain ⟨t, hts⟩ := Option.isSome_iff_exists.mp he
    simp only [titles_of, hts]
    rw [ih (fun x hx => ht x (by simp [hx]))]
    simp [title_str, hts]

theorem titles_of_fst (db : List Entry) (titled : List (Entry × String))
    (h : titles_of db = .ok titled) : titled.map (fun p => p.1) = db := by
  induction db generalizing titled with
  | nil =>
    simp only [titles_of] at h
    cases h
    rfl
  | cons e es ih =>
    simp only [titles_of] at h
    cases hte : get_title e with
    | none => rw [hte] at h; cases h
    | some t =>
      rw [hte] at h
      cases hrec : titles_of es with
      | error err => rw [hrec] at h; cases h
      | ok ps =>
        rw [hrec] at h
        cases h
        simp [ih ps hrec]

/-! ## Inline stage lists coincide with the standalone stage definitions -/

theorem ci_inline (db : List Entry) (title : String) :
    ((db.map (fun e => (e, title_str e))).filter
      (fun p => py_lower p.2 == py_lower title)).map (fun p => p.1)
      = ci_candidates db title := by
  rw [List.filter_map, List.map_map]
  simp [Function.comp_def, ci_candidates]

theorem sub_inline (db : List Entry) (title : String) :
    ((db.map (fun e => (e, title_str e))).filter
      (fun p => str_contains (py_lower p.2) (py_lower title))).map (fun p => p.1)
      = sub_candidates db title := by
  rw [List.filter_map, List.map_map]
  simp [Function.comp_def, sub_candidates]

/-! ## Stage characterization of the fuzzy search -/

theorem fuzzy_stages (db : List Entry) (title : String) (ig : Option (List String))
    (ht : ∀ e ∈ db, (get_title e).isSome) :
    fuzzy_search_by_title db title ig =
      .ok (if exact_candidates db title ≠ [] then filter_entries (exact_candidates db title) ig
        else if ci_candidates db title ≠ [] then filter_entries (ci_candidates db title) ig
        else if sub_candidates db title ≠ [] then filter_entries (sub_candidates db title) ig
        else if approx_keys db title ≠ [] then filter_entries (approx_candidates db title) ig
        else []) := by
  simp only [fuzzy_search_by_title]
  rw [titles_of_ok db ht]
  by_cases h1 : exact_candidates db title = []
  · have h1' : (db.filter (fun e => get_title e == some title)).isEmpty = true :=
      List.isEmpty_iff.mpr h1
    rw [h1']
    simp only [Bool.not_true, Bool.false_eq_true, if_false]
    rw [ci_inline, sub_inline]
    rw [if_neg (show ¬ (exact_candidates db title ≠ []) from fun hc => hc h1)]
    by_cases h2 : ci_candidates db title = []
    · have h2' : (ci_candidates db title).isEmpty = true := List.isEmpty_iff.mpr h2
      rw [h2']
      simp only [Bool.not_true, Bool.false_eq_true, if_false]
      rw [if_neg (show ¬ (ci_candidates db title ≠ []) from fun hc => hc h2)]
      by_cases h3 : sub_candidates db title = []
      · have h3' : (sub_candidates db title).isEmpty = true := List.isEmpty_iff.mpr h3
        rw [h3']
        simp only [Bool.not_true, Bool.false_eq_true, if_false]
        rw [if_neg (show ¬ (sub_candidates db title ≠ []) from fun hc => hc h3)]
        show (if (!(approx_keys db title).isEmpty) = true
            then Except.ok (filter_entries (approx_candidates db title) ig)
            else Except.ok ([] : List Entry)) = _
        by_cases h4 : approx_keys db title = []
        · rw [List.isEmpty_iff.mpr h4]
          simp only [Bool.not_true, Bool.false_eq_true, if_false]
          rw [if_neg (show ¬ (approx_keys db title ≠ []) from fun hc => hc h4)]
        · rw [List.isEmpty_eq_false.mpr h4]
          simp only [Bool.not_false, if_true]
          rw [if_pos h4]
      · have h3' : (sub_candidates db title).isEmpty = false := List.isEmpty_eq_false.mpr h3
        rw [h3']
        simp only [Bool.not_false, if_true]
        rw [if_pos h3]
    · have h2' : (ci_candidates db title).isEmpty = false := List.isEmpty_eq_false.mpr h2
      rw [h2']
      simp only [Bool.not_false, if_true]
      rw [if_pos h2]
  · have h1' : (db.filter (fun e => get_title e == some title)).isEmpty = false :=
      List.isEmpty_eq_false.mpr h1
    rw [h1']
    simp only [Bool.not_false, if_true]
    rw [if_pos h1]
    rfl

theorem titles_of_eq_map (db : List Entry) (titled : List (Entry × String))
    (h : titles_of db = .ok titled) : titled = db.map (fun e => (e, title_str e)) := by
  induction db generalizing titled with
  | nil =>
    simp only [titles_of] at h
    cases h
    rfl
  | cons e es ih =>
    simp only [titles_of] at h
    cases hte : get_title e with
    | none => rw [hte] at h; cases h
    | some t =>
      rw [hte] at h
      cases hrec : titles_of es with
      | error err => rw [hrec] at h; cases h
      | ok ps =>
        rw [hrec] at h
        cases h
        simp [ih ps hrec, title_str, hte]

/-- The exact stage short-circuits on a non-empty raw candidate list, for any
store (well-formed or not): the other stages are not so much as examined. -/
theorem fuzzy_exact_stage (db : List Entry) (title : String) (ig : Option (List String))
    (h : exact_candidates db title ≠ []) :
    fuzzy_search_by_title db title ig = .ok (filter_entries (exact_candidates db title) ig) := by
  simp only [fuzzy_search_by_title]
  have h' : (db.filter (fun e => get_title e == some title)).isEmpty = false :=
    List.isEmpty_eq_false.mpr h
  rw [h']
  simp only [Bool.not_false, if_true]
  rfl

/-- Every list the fuzzy search can return with a concrete exclusion list has
been pushed through the exclusion filter (or is empty), so no member's group
is in the list. -/
theorem fuzzy_mem_not_ignored (db : List Entry) (title : String) (gs : List String)
    (res : List Entry) (h : fuzzy_search_by_title db title (some gs) = .ok res) :
    ∀ e ∈ res, e.groupName ∉ gs := by
  cases hT : titles_of db with
  | error err =>
    simp only [fuzzy_search_by_title, hT] at h
    split at h
    · cases h
      intro e he
      exact ((mem_filter_entries_some _ _ _).mp he).2
    · cases h
  | ok titled =>
    simp only [fuzzy_search_by_title, hT] at h
    split at h
    · cases h
      intro e he
      exact ((mem_filter_entries_some _ _ _).mp he).2
    · split at h
      · cases h
        intro e he
        exact ((mem_filter_entries_some _ _ _).mp he).2
      · split at h
        · cases h
          intro e he
          exact ((mem_filter_entries_some _ _ _).mp he).2
        · split at h
          · cases h
            intro e he
            exact ((mem_filter_entries_some _ _ _).mp he).2
          · cases h
            intro e he
            simp at he

/-- Members of a bucket of the title index built over well-formed titled
pairs have exactly that lowercased title. -/
theorem bucket_spec_mem (db : List Entry) (k : String) (e : Entry)
    (h : e ∈ bucket_spec (db.map (fun x => (x, title_str x))) k) :
    e ∈ db ∧ py_lower (title_str e) = k := by
  simp only [bucket_spec, List.mem_map, List.mem_filter] at h
  obtain ⟨p, ⟨hp, hpk⟩, rfl⟩ := h
  obtain ⟨x, hx, rfl⟩ := hp
  exact ⟨hx, by simpa using hpk⟩

theorem map_fst_titled (db : List Entry) :
    (db.map (fun e => (e, title_str e))).map (fun p => p.1) = db := by
  rw [List.map_map]
  simp [Function.comp_def]

/-! ## Claim theorems -/

/-- C5: stage escalation is all-or-nothing.  First conjunct: when an entry
titled byte-for-byte equal to `term` exists and is not excluded (the
filtered exact-match stage is non-empty), the result consists exactly of the
filtered exact matches — the case-insensitive, substring and approximate
stages are never attempted and contribute nothing.  Remaining conjuncts, for
well-formed stores: if stage N yields any filtered result, stages N+1..4
contribute nothing — the output is exactly the filtered candidate set of one
single stage among 1..N (for N = 4 the clause is vacuous). -/
theorem C5_stage_precedence (db : List Entry) (term : String) (ig : Option (List String)) :
    (filter_entries (exact_candidates db term) ig ≠ [] →
      fuzzy_search_by_title db term ig = .ok (filter_entries (exact_candidates db term) ig))
    ∧ ((∀ e ∈ db, (get_title e).isSome) →
        (filter_entries (ci_candidates db term) ig ≠ [] →
          fuzzy_search_by_title db term ig = .ok (filter_entries (exact_candidates db term) ig)
          ∨ fuzzy_search_by_title db term ig = .ok (filter_entries (ci_candidates db term) ig))
        ∧ (filter_entries (sub_candidates db term) ig ≠ [] →
          fuzzy_search_by_title db term ig = .ok (filter_entries (exact_candidates db term) ig)
          ∨ fuzzy_search_by_title db term ig = .ok (filter_entries (ci_candidates db term) ig)
          ∨ fuzzy_search_by_title db term ig
              = .ok (filter_entries (sub_candidates db term) ig))) := by
  constructor
  · intro hne
    apply fuzzy_exact_stage
    intro hc
    rw [hc, filter_entries_nil] at hne
    exact hne rfl
  · intro ht
    have hfz := fuzzy_stages db term ig ht
    constructor
    · intro hne
      have h2 : ci_candidates db term ≠ [] := fun hc => by
        rw [hc, filter_entries_nil] at hne
        exact hne rfl
      by_cases h1 : exact_candidates db term = []
      · right
        rw [hfz, if_neg (fun hc => hc h1), if_pos h2]
      · left
        rw [hfz, if_pos h1]
    · intro hne
      have h3 : sub_candidates db term ≠ [] := fun hc => by
        rw [hc, filter_entries_nil] at hne
        exact hne rfl
      by_cases h1 : exact_candidates db term = []
      · by_cases h2 : ci_candidates db term = []
        · right; right
          rw [hfz, if_neg (fun hc => hc h1), if_neg (fun hc => hc h2), if_pos h3]
        · right; left
          rw [hfz, if_neg (fun hc => hc h1), if_pos h2]
      · left
        rw [hfz, if_pos h1]

theorem C5_stage_precedence_witness :
    fuzzy_search_by_title db_escalation "xfoox" (some ["Backup"])
      = .ok (filter_entries (exact_candidates db_escalation "xfoox") (some ["Backup"]))
    ∧ (fuzzy_search_by_title db_ci "bar" (some ["Backup"])
        = .ok (filter_entries (exact_candidates db_ci "bar") (some ["Backup"]))
      ∨ fuzzy_search_by_title db_ci "bar" (some ["Backup"])
        = .ok (filter_entries (ci_candidates db_ci "bar") (some ["Backup"]))) :=
  ⟨(C5_stage_precedence db_escalation "xfoox" (some ["Backup"])).1 (by decide),
    ((C5_stage_precedence db_ci "bar" (some ["Backup"])).2 (by decide)).1 (by decide)⟩

/-- C6: the exclusion-filter contract.  An absent exclusion set returns the
input unchanged; a set filters to the order-preserving subsequence of entries
whose group is not a member; an empty set behaves like an absent one; there
is no failure (the empty result below is a legal value of the function). -/
theorem C6_filter_contract (es : List Entry) (gs : List String) :
    filter_entries es none = es
    ∧ (filter_entries es (some gs)).Sublist es
    ∧ (∀ e, e ∈ filter_entries es (some gs) ↔ e ∈ es ∧ e.groupName ∉ gs)
    ∧ filter_entries es (some []) = filter_entries es none := by
  refine ⟨rfl, filter_entries_sublist es (some gs), mem_filter_entries_some es gs, ?_⟩
  simp [filter_entries]

/-- C7: `_find_string` compares keys case-insensitively by lowering both the
query key and each stored key; a returned value belongs to a matching field,
and the `None` sentinel is returned exactly when no stored key matches. -/
theorem C7_field_lookup (e : Entry) (key : String) :
    (∀ v, find_string e key = some v →
      ∃ f ∈ e.strings, py_lower f.key = py_lower key ∧ f.value = v)
    ∧ (find_string e key = none ↔ ∀ f ∈ e.strings, py_lower f.key ≠ py_lower key) := by
  constructor
  · intro v hv
    unfold find_string at hv
    cases hf : e.strings.find? (fun s => py_lower s.key == py_lower key) with
    | none => rw [hf] at hv; cases hv
    | some s =>
      rw [hf] at hv
      cases hv
      exact ⟨s, List.mem_of_find?_eq_some hf, by simpa using List.find?_some hf, rfl⟩
  · constructor
    · intro hnone f hfm
      have hfind : e.strings.find? (fun s => py_lower s.key == py_lower key) = none := by
        unfold find_string at hnone
        cases hf : e.strings.find? (fun s => py_lower s.key == py_lower key) with
        | none => rfl
        | some s => rw [hf] at hnone; cases hnone
      have := List.find?_eq_none.mp hfind f hfm
      simpa using this
    · intro hall
      unfold find_string
      have hfind : e.strings.find? (fun s => py_lower s.key == py_lower key) = none :=
        List.find?_eq_none.mpr (fun f hfm => by simpa using hall f hfm)
      rw [hfind]

theorem C7_field_lookup_witness :
    ∃ f ∈ entry_url.strings, py_lower f.key = py_lower "url" ∧ f.value = "http://x" :=
  (C7_field_lookup entry_url "url").1 "http://x" rfl

/-- C8: the lookup flow always excludes the `Backup` group: whatever sequence
`_search_for_entry` returns, no member's containing group is named `Backup`
(it invokes the staged matcher with `ignore_groups=["Backup"]`). -/
theorem C8_backup_excluded (db : List Entry) (term : String) (res : List Entry)
    (h : search_for_entry db term = .ok res) :
    ∀ e ∈ res, e.groupName ≠ "Backup" := by
  unfold search_for_entry at h
  cases hf : fuzzy_search_by_title db term (some ["Backup"]) with
  | error err => simp only [hf] at h; cases h
  | ok entries =>
    simp only [hf] at h
    by_cases hemp : entries.isEmpty = true
    · rw [if_pos hemp] at h
      cases h
    · rw [if_neg hemp] at h
      cases h
      intro e he
      have := fuzzy_mem_not_ignored db term ["Backup"] res hf e he
      simpa using this

theorem C8_backup_excluded_witness : entry_xfoox_work.groupName ≠ "Backup" :=
  C8_backup_excluded db_escalation "xfoox" [entry_xfoox_work] rfl entry_xfoox_work (by simp)

/-- C9: no duplicates.  Over a store of distinct entries, whatever list one
resolution call returns contains each entry at most once — in particular in
the approximate stage, where every entry lies in exactly one bucket of the
title index (keyed by its lowercased title) and the kept keys are distinct. -/
theorem C9_no_duplicates (db : List Entry) (term : String) (ig : Option (List String))
    (res : List Entry) (hnd : db.Nodup)
    (h : fuzzy_search_by_title db term ig = .ok res) : res.Nodup := by
  cases hT : titles_of db with
  | error err =>
    simp only [fuzzy_search_by_title, hT] at h
    split at h
    · cases h
      exact ((filter_entries_sublist _ _).trans (List.filter_sublist db)).nodup hnd
    · cases h
  | ok titled =>
    obtain rfl : titled = db.map (fun e => (e, title_str e)) := titles_of_eq_map db titled hT
    simp only [fuzzy_search_by_title, hT] at h
    split at h
    · cases h
      exact ((filter_entries_sublist _ _).trans (List.filter_sublist db)).nodup hnd
    · split at h
      · cases h
        refine (filter_entries_sublist _ _).nodup ?_
        have h0 : ((db.map (fun e => (e, title_str e))).filter
            (fun p => py_lower p.2 == py_lower term)).Sublist
            (db.map (fun e => (e, title_str e))) := List.filter_sublist _
        have h1 := List.Sublist.map (fun p : Entry × String => p.1) h0
        rw [map_fst_titled] at h1
        exact h1.nodup hnd
      · split at h
        · cases h
          refine (filter_entries_sublist _ _).nodup ?_
          have h0 : ((db.map (fun e => (e, title_str e))).filter
              (fun p => str_contains (py_lower p.2) (py_lower term))).Sublist
              (db.map (fun e => (e, title_str e))) := List.filter_sublist _
          have h1 := List.Sublist.map (fun p : Entry × String => p.1) h0
          rw [map_fst_titled] at h1
          exact h1.nodup hnd
        · split at h
          · cases h
            refine (filter_entries_sublist _ _).nodup ?_
            rw [List.nodup_flatten]
            have hget : ∀ k, multidict_get ((db.map (fun e => (e, title_str e))).foldl
                (fun m p => multidict_set m (py_lower p.2) p.1) []) k
                = bucket_spec (db.map (fun e => (e, title_str e))) k := by
              intro k
              rw [multidict_build_get]
              simp [multidict_get]
            constructor
            · intro l hl
              rw [List.mem_map] at hl
              obtain ⟨k, hk, rfl⟩ := hl
              rw [hget]
              have h0 : ((db.map (fun e => (e, title_str e))).filter
                  (fun p => py_lower p.2 == k)).Sublist
                  (db.map (fun e => (e, title_str e))) := List.filter_sublist _
              have h1 := List.Sublist.map (fun p : Entry × String => p.1) h0
              rw [map_fst_titled] at h1
              exact h1.nodup hnd
            · rw [List.pairwise_map]
              have hkeys : (multidict_keys ((db.map (fun e => (e, title_str e))).foldl
                  (fun m p => multidict_set m (py_lower p.2) p.1) [])).Nodup :=
                multidict_build_keys_nodup _ [] (by simp [multidict_keys])
              have hclose := get_close_matches_nodup (py_lower term) _ 3 7 10 hkeys
              refine hclose.imp ?_
              intro k₁ k₂ hne12 a ha1 ha2
              rw [hget] at ha1 ha2
              have hb1 := (bucket_spec_mem db k₁ a ha1).2
              have hb2 := (bucket_spec_mem db k₂ a ha2).2
              exact hne12 (hb1 ▸ hb2 ▸ rfl)
          · cases h
            exact List.nodup_nil

theorem C9_no_duplicates_witness : ([entry_b4, entry_b3, entry_b2] : List Entry).Nodup :=
  C9_no_duplicates db_four "abcde" none [entry_b4, entry_b3, entry_b2] (by decide) rfl

/-- C10: `_find_password` matches the stored key `Password` case-sensitively
(unlike the case-insensitive `_find_string`): it returns `None` exactly when
no stored key is the exact string `Password`, so an entry whose password
field key differs in case yields the absent sentinel. -/
theorem C10_password_case_sensitive (e : Entry) :
    (find_password e = none ↔ ∀ f ∈ e.strings, f.key ≠ "Password")
    ∧ (∀ v, find_password e = some v → ∃ f ∈ e.strings, f.key = "Password" ∧ f.value = v) := by
  constructor
  · constructor
    · intro hnone f hfm
      have hfind : e.strings.find? (fun s => s.key == "Password") = none := by
        unfold find_password at hnone
        cases hf : e.strings.find? (fun s => s.key == "Password") with
        | none => rfl
        | some s => rw [hf] at hnone; cases hnone
      have := List.find?_eq_none.mp hfind f hfm
      simpa using this
    · intro hall
      unfold find_password
      have hfind : e.strings.find? (fun s => s.key == "Password") = none :=
        List.find?_eq_none.mpr (fun f hfm => by simpa using hall f hfm)
      rw [hfind]
  · intro v hv
    unfold find_password at hv
    cases hf : e.strings.find? (fun s => s.key == "Password") with
    | none => rw [hf] at hv; cases hv
    | some s =>
      rw [hf] at hv
      cases hv
      exact ⟨s, List.mem_of_find?_eq_some hf, by simpa using List.find?_some hf, rfl⟩

theorem C10_password_case_sensitive_witness : find_password entry_lower_password = none :=
  (C10_password_case_sensitive entry_lower_password).1.mpr (by decide)

theorem score_ge_pairs_iff (w x y : String) :
    score_ge (score_pair w x, x) (score_pair w y, y) = true ↔
      (sm_ratio y w < sm_ratio x w ∨ (sm_ratio x w = sm_ratio y w ∧ str_lt x y = false)) := by
  rw [score_ge_iff]
  simp [pair_val_score_pair]

/-- C1 fails on the code: with term `foo`, the only exact match lies in the
excluded `Backup` group while a non-excluded entry's title contains `foo` as
a substring, yet resolution raises `EntryNotFoundError` instead of
escalating to the substring stage — each stage's emptiness is checked on the
raw candidate list, before the exclusion filter runs. -/
theorem C1_counterexample :
    entry_xfoox_work.groupName ≠ "Backup"
    ∧ str_contains (py_lower (title_str entry_xfoox_work)) (py_lower "foo") = true
    ∧ filter_entries (sub_candidates db_escalation "foo") (some ["Backup"]) ≠ []
    ∧ filter_entries (exact_candidates db_escalation "foo") (some ["Backup"]) = []
    ∧ search_for_entry db_escalation "foo"
        = .error (.entryNotFoundError "Could not find an entry for: foo") :=
  ⟨by decide, by decide, by decide, by decide, rfl⟩

/-- C1 amended: each stage decides emptiness on its RAW candidate set and
only then filters: the first stage with raw matches has its filtered —
possibly empty — result returned, so a stage whose matches all lie in
excluded groups ends resolution with an empty result rather than escalating.
(Stated for stores whose entries all carry a `Title` field; otherwise Python
raises `AttributeError` from stage two on.) -/
theorem C1_amended_raw_emptiness (db : List Entry) (title : String)
    (ig : Option (List String)) (ht : ∀ e ∈ db, (get_title e).isSome) :
    fuzzy_search_by_title db title ig =
      .ok (if exact_candidates db title ≠ [] then filter_entries (exact_candidates db title) ig
        else if ci_candidates db title ≠ [] then filter_entries (ci_candidates db title) ig
        else if sub_candidates db title ≠ [] then filter_entries (sub_candidates db title) ig
        else if approx_keys db title ≠ [] then filter_entries (approx_candidates db title) ig
        else []) :=
  fuzzy_stages db title ig ht

theorem C1_amended_raw_emptiness_witness :
    fuzzy_search_by_title db_escalation "foo" (some ["Backup"])
      = .ok (if exact_candidates db_escalation "foo" ≠ []
          then filter_entries (exact_candidates db_escalation "foo") (some ["Backup"])
          else if ci_candidates db_escalation "foo" ≠ []
          then filter_entries (ci_candidates db_escalation "foo") (some ["Backup"])
          else if sub_candidates db_escalation "foo" ≠ []
          then filter_entries (sub_candidates db_escalation "foo") (some ["Backup"])
          else if approx_keys db_escalation "foo" ≠ []
          then filter_entries (approx_candidates db_escalation "foo") (some ["Backup"])
          else []) :=
  C1_amended_raw_emptiness db_escalation "foo" (some ["Backup"]) (by decide)

/-- C2 fails on the code: for term `abcde`, all four distinct index keys
reach ratio ≥ 0.7, but `difflib.get_close_matches` is called with its
default `n=3`, so only the three best keys contribute and the qualifying
entry titled `bacde1` is dropped from the result. -/
theorem C2_counterexample :
    (7/10 : ℚ) ≤ sm_ratio "bacde1" "abcde"
    ∧ py_lower (title_str entry_b1) = "bacde1"
    ∧ "bacde1" ∈ multidict_keys (entry_map_of db_four)
    ∧ fuzzy_search_by_title db_four "abcde" none = .ok [entry_b4, entry_b3, entry_b2]
    ∧ entry_b1 ∉ [entry_b4, entry_b3, entry_b2] := by
  refine ⟨(ratio_qualifies_iff "abcde" "bacde1").mp (by decide), by decide, by decide, rfl,
    by decide⟩

/-- C2 amended: the approximate stage keeps AT MOST the 3 best qualifying
keys (the `n=3` default of `get_close_matches`): every kept key qualifies
(ratio ≥ 0.7), there are never more than three kept keys, and whenever at
most three keys qualify, every qualifying key is kept. -/
theorem C2_amended_top3 (word : String) (keys : List String) :
    (get_close_matches word keys 3 7 10).length ≤ 3
    ∧ (∀ k ∈ get_close_matches word keys 3 7 10,
        k ∈ keys ∧ (7/10 : ℚ) ≤ sm_ratio k word)
    ∧ ((keys.filter (fun x => ratio_qualifies 7 10 word x)).length ≤ 3 →
        ∀ k ∈ keys, (7/10 : ℚ) ≤ sm_ratio k word →
          k ∈ get_close_matches word keys 3 7 10) := by
  refine ⟨get_close_matches_length_le word keys 3 7 10, ?_, ?_⟩
  · intro k hk
    have h := get_close_matches_mem word keys 3 7 10 k hk
    exact ⟨h.1, (ratio_qualifies_iff word k).mp h.2⟩
  · intro hlen k hk hq
    exact get_close_matches_complete word keys 3 7 10 hlen k hk
      ((ratio_qualifies_iff word k).mpr hq)

theorem C2_amended_top3_witness :
    "bacde1" ∈ get_close_matches "abcde" ["bacde1", "zzzz"] 3 7 10 :=
  (C2_amended_top3 "abcde" ["bacde1", "zzzz"]).2.2 (by decide) "bacde1" (by decide)
    ((ratio_qualifies_iff "abcde" "bacde1").mp (by decide))

/-- C3 fails on the code: both keys qualify for term `abcdef`, the title
index lists `bacdefg` before `bacdef` (store order), but the returned
entries come back in the opposite order because the kept keys are sorted by
similarity score descending. -/
theorem C3_counterexample :
    multidict_keys (entry_map_of db_order) = ["bacdefg", "bacdef"]
    ∧ (7/10 : ℚ) ≤ sm_ratio "bacdefg" "abcdef"
    ∧ sm_ratio "bacdefg" "abcdef" < sm_ratio "bacdef" "abcdef"
    ∧ fuzzy_search_by_title db_order "abcdef" none
        = .ok [entry_high_score_second, entry_low_score_first] := by
  refine ⟨rfl, (ratio_qualifies_iff "abcdef" "bacdefg").mp (by decide), ?_, rfl⟩
  rw [sm_ratio_of "bacdefg" "abcdef" 5 13 (by decide) (by decide) (by norm_num),
    sm_ratio_of "bacdef" "abcdef" 5 12 (by decide) (by decide) (by norm_num)]
  norm_num

/-- C3 amended: when several keys qualify, the kept keys are ordered by
similarity ratio DESCENDING with ties broken towards the lexicographically
larger key — not by index-construction order; entries drawn from a single
key do preserve original store order (each bucket is the store-order
subsequence of titled entries with that lowercased title). -/
theorem C3_amended_score_order (db : List Entry) (term : String) :
    List.Pairwise (fun x y => sm_ratio y (py_lower term) < sm_ratio x (py_lower term)
        ∨ (sm_ratio x (py_lower term) = sm_ratio y (py_lower term) ∧ str_lt x y = false))
      (approx_keys db term)
    ∧ (∀ k, multidict_get (entry_map_of db) k =
        ((db.map (fun e => (e, title_str e))).filter
          (fun p => py_lower p.2 == k)).map (fun p => p.1)) := by
  constructor
  · unfold approx_keys
    have hp := get_close_matches_sorted (py_lower term) (multidict_keys (entry_map_of db)) 3 7 10
    refine hp.imp ?_
    intro x y hxy
    exact (score_ge_pairs_iff (py_lower term) x y).mp hxy
  · intro k
    rw [entry_map_of_get]
    rfl

/-- C4 fails on the code: in this store the case-insensitive stage yields a
non-excluded entry after filtering — so it is false that all four stages
yield nothing after filtering — yet the call raises `EntryNotFoundError`,
because the raw exact stage was non-empty and its filtered result empty. -/
theorem C4_counterexample :
    filter_entries (ci_candidates db_ci "bar") (some ["Backup"]) ≠ []
    ∧ search_for_entry db_ci "bar"
        = .error (.entryNotFoundError "Could not find an entry for: bar") :=
  ⟨by decide, rfl⟩

/-- C4 amended: over well-formed stores the error surface is the single
`EntryNotFoundError`, carrying the original term in its message; the staged
matcher itself always succeeds, a non-empty staged result is returned
unchanged, and the error is raised exactly when the staged matcher returns
the empty list — which, by the raw-emptiness escalation rule, happens when
the first stage with raw matches filters to empty (or no stage matches),
not only when all four stages yield nothing after filtering. -/
theorem C4_error_surface (db : List Entry) (term : String)
    (ht : ∀ e ∈ db, (get_title e).isSome) :
    (∃ res, fuzzy_search_by_title db term (some ["Backup"]) = .ok res)
    ∧ (∀ res, fuzzy_search_by_title db term (some ["Backup"]) = .ok res →
        (res = [] → search_for_entry db term =
          .error (.entryNotFoundError ("Could not find an entry for: " ++ term)))
        ∧ (res ≠ [] → search_for_entry db term = .ok res)) := by
  constructor
  · exact ⟨_, fuzzy_stages db term (some ["Backup"]) ht⟩
  · intro res hres
    constructor
    · intro hempty
      subst hempty
      unfold search_for_entry
      simp only [hres]
      rfl
    · intro hne
      unfold search_for_entry
      simp only [hres]
      rw [List.isEmpty_eq_false.mpr hne]
      simp

theorem C4_error_surface_witness :
    search_for_entry db_ci "bar"
      = .error (.entryNotFoundError ("Could not find an entry for: " ++ "bar")) :=
  ((C4_error_surface db_ci "bar" (by decide)).2 [] rfl).1 rfl
